import Mathlib

/-!
Verification development for the vsag HGraph index core.

The definitions below are a shallow embedding of `src/algorithm/hgraph.cpp`
and `src/impl/basic_searcher.cpp`.  Machine floats are modelled by exact
rationals (the claims under study are control-flow and order properties of
the search, not rounding properties), `uint64_t` arithmetic is `Nat` with an
explicit `% 2^64`, heaps (`std::priority_queue` over `std::pair`) are sorted
lists with the C++ pair ordering, and fallible or undefined behaviour is an
explicit `Except`.
-/

namespace Vsag

/-- Search mode tag of the templated searcher (`InnerSearchMode`). -/
inductive SearchMode where
  | knn
  | range
deriving DecidableEq

/-- Abnormal outcomes of the embedded searcher: `emptyPop` models
`std::priority_queue::pop()` executed on an empty heap (undefined behaviour
in the C++ source), `emptyTop` models `top()` on an empty heap, `outOfFuel`
marks a run whose iteration budget was insufficient (never the case for the
concrete runs below), `invalidArgument` models `CHECK_ARGUMENT` throwing. -/
inductive SErr where
  | emptyPop
  | emptyTop
  | outOfFuel
  | invalidArgument
deriving DecidableEq

/-- Decidable equality of fallible results, for evaluating concrete runs. -/
instance exceptDecEq {e a : Type} [DecidableEq e] [DecidableEq a] :
    DecidableEq (Except e a) := fun x y =>
  match x, y with
  | .ok u, .ok v => decidable_of_iff (u = v) (by simp)
  | .error u, .error v => decidable_of_iff (u = v) (by simp)
  | .ok _, .error _ => isFalse (by simp)
  | .error _, .ok _ => isFalse (by simp)

/-- The C++ `std::pair<float, InnerIdType>` comparison (lexicographic:
first the distance, then the id). -/
def pairLt (a b : ℚ × Nat) : Bool :=
  decide (a.1 < b.1) || (decide (a.1 = b.1) && decide (a.2 < b.2))

/-- Priority comparison used by `candidate_set`, which stores
`(-dist, id)` in a max-heap of pairs: `a` has lower priority than `b`
iff `(-a.dist, a.id) < (-b.dist, b.id)` lexicographically. -/
def candLt (a b : ℚ × Nat) : Bool :=
  pairLt (-a.1, a.2) (-b.1, b.2)

/-- A binary max-heap of `(dist, id)` pairs, represented as the list of its
elements in extraction order: the head is `top()` (the maximum for the given
comparison), `tail` is `pop()`. -/
abbrev MaxHeap := List (ℚ × Nat)

/-- Push into the heap list, keeping extraction order: the new element is
inserted before the first element it is not less than. -/
def heapPush (lt : (ℚ × Nat) → (ℚ × Nat) → Bool) (p : ℚ × Nat) :
    MaxHeap → MaxHeap
  | [] => [p]
  | q :: t => if lt p q then q :: heapPush lt p t else p :: q :: t

/-- `while (heap.size() > k) heap.pop();` with a possibly negative bound. -/
def trimHeap (k : Int) : MaxHeap → MaxHeap
  | [] => []
  | p :: t => if ((p :: t).length : Int) > k then trimHeap k t else p :: t

/-- `while (!heap.empty() && heap.top().first > bound) heap.pop();`. -/
def popWhileGt (bound : ℚ) : MaxHeap → MaxHeap
  | [] => []
  | p :: t => if p.1 > bound then popWhileGt bound t else p :: t

/-- A single-layer graph data cell: adjacency by inner id plus the number of
points present (`TotalCount`).  The underlying `GraphInterface` is a
collaborator of the core (spec section 6). -/
structure GraphCell where
  adj : Nat → List Nat
  totalCount : Nat

/-- The fresh sparse cell produced by `HGraph::generate_one_route_graph`. -/
def emptyGraphCell : GraphCell := ⟨fun _ => [], 0⟩

/-- `THRESHOLD_ERROR`. Modelled from the spec: the constant lives in
`common.h`, which is not part of the sources; the spec gives ε = 2e-6. -/
def THRESHOLD_ERROR : ℚ := 2 / 1000000

/-- The unvisited-neighbor scan of the searcher loop: walk the neighbor
list, collect the not-yet-visited ids in order into `to_be_visited` and mark
each immediately (`visited_array[neighbor] = tag`).  Returns the collected
ids and the updated visited set. -/
def collectUnvisited : List Nat → List Nat → List Nat × List Nat
  | visited, [] => ([], visited)
  | visited, n :: rest =>
    if n ∈ visited then collectUnvisited visited rest
    else
      let r := collectUnvisited (n :: visited) rest
      (n :: r.1, r.2)

/-- Mutable state of the best-first traversal loop. `log` records every id
whose distance has been requested from the codec (`flatten->Query`). -/
structure LoopSt where
  cand : MaxHeap
  res : MaxHeap
  visited : List Nat
  lb : WithTop ℚ
  log : List Nat

/-- One neighbor relaxation (the body of the `for` over the batch-computed
distances), identical in `HGraph::search_one_graph` and
`BasicSearcher::search_impl`. -/
def relaxOne (mode : SearchMode) (ef : Nat) (radius : ℚ) (allowId : Nat → Bool)
    (distf : Nat → ℚ) (st : LoopSt) (n : Nat) : LoopSt :=
  let d := distf n
  if st.res.length < ef ∨ st.lb > (d : WithTop ℚ) ∨
      (mode = .range ∧ d ≤ radius) then
    let cand := heapPush candLt (d, n) st.cand
    let res := if allowId n then heapPush pairLt (d, n) st.res else st.res
    let res := if mode = .knn ∧ res.length > ef then res.tail else res
    let lb := match res with
      | [] => st.lb
      | p :: _ => ((p.1 : ℚ) : WithTop ℚ)
    { st with cand := cand, res := res, lb := lb }
  else st

/-- Relax every entry of the `to_be_visited` buffer in order. -/
def relaxAll (mode : SearchMode) (ef : Nat) (radius : ℚ) (allowId : Nat → Bool)
    (distf : Nat → ℚ) (st : LoopSt) (tbv : List Nat) : LoopSt :=
  tbv.foldl (relaxOne mode ef radius allowId distf) st

/-- The `while (!candidate_set.empty())` traversal, shared verbatim by
`HGraph::search_one_graph` and `BasicSearcher::search_impl`; `fuel` bounds
the number of iterations (the loop always terminates since only unvisited
ids enter the candidate heap). -/
def searchLoop (mode : SearchMode) (adj : Nat → List Nat) (distf : Nat → ℚ)
    (allowId : Nat → Bool) (ef : Nat) (radius : ℚ) :
    Nat → LoopSt → Option (MaxHeap × List Nat)
  | 0, _ => none
  | fuel + 1, st =>
    match st.cand with
    | [] => some (st.res, st.log)
    | (dc, c) :: candRest =>
      if mode = .knn ∧ st.lb < (dc : WithTop ℚ) ∧ st.res.length = ef then
        some (st.res, st.log)
      else
        let scan := collectUnvisited st.visited (adj c)
        let st1 := relaxAll mode ef radius allowId distf
          { st with cand := candRest, visited := scan.2,
                    log := st.log ++ scan.1 } scan.1
        searchLoop mode adj distf allowId ef radius fuel st1

end Vsag

namespace Vsag

/-- `HGraph::search_one_graph` (hgraph.cpp, lines 368-473).  The query and
codec are fused into `distf` (the composition of `FactoryComputer` and
`Query`); the filter (`is_id_allowed_`) is applied to the *label* of an id,
via `get_label_by_id`.  In RANGE mode the initial `cur_result.pop()` is
**unguarded** in the source: on an empty heap it is undefined behaviour,
surfaced here as `SErr.emptyPop`.  The second component of a successful
result is the list of ids passed to `flatten->Query`. -/
def HGraph.search_one_graph (mode : SearchMode) (graph : GraphCell)
    (distf : Nat → ℚ) (labels : List Int) (filt : Option (Int → Bool))
    (ep ef : Nat) (radius : ℚ) (fuel : Nat) :
    Except SErr (MaxHeap × List Nat) :=
  let allowId : Nat → Bool := fun id =>
    match filt with
    | none => true
    | some f => f (labels.getD id 0)
  let d0 := distf ep
  let res0 : MaxHeap := if allowId ep then [(d0, ep)] else []
  let lb0 : WithTop ℚ := if allowId ep then ((d0 : ℚ) : WithTop ℚ) else ⊤
  let popStep : Except SErr MaxHeap :=
    if mode = .range ∧ d0 > radius then
      match res0 with
      | [] => .error .emptyPop
      | _ :: t => .ok t
    else .ok res0
  match popStep with
  | .error e => .error e
  | .ok res1 =>
    match searchLoop mode graph.adj distf allowId ef radius fuel
        ⟨[(d0, ep)], res1, [ep], lb0, [ep]⟩ with
    | none => .error .outOfFuel
    | some (r, log) => .ok (r, log)

/-- `BasicSearcher::search_impl` (basic_searcher.cpp, lines 72-176).  The
filter checks inner ids directly (`CheckValid`); the initial RANGE pop is
guarded by `not top_candidates.empty()`; KNN post-trims to `topk`, RANGE
post-trims to `range_search_limit_size` (when positive) and then drops
every element above `radius + THRESHOLD_ERROR`. -/
def BasicSearcher.search_impl (mode : SearchMode) (graph : GraphCell)
    (distf : Nat → ℚ) (filt : Option (Nat → Bool)) (ep ef : Nat)
    (topk : Int) (radius : ℚ) (rangeLimit : Int) (fuel : Nat) :
    Except SErr (MaxHeap × List Nat) :=
  let allowId : Nat → Bool := fun id =>
    match filt with
    | none => true
    | some f => f id
  let d0 := distf ep
  let res0 : MaxHeap := if allowId ep then [(d0, ep)] else []
  let lb0 : WithTop ℚ := if allowId ep then ((d0 : ℚ) : WithTop ℚ) else ⊤
  let res1 := if mode = .range ∧ d0 > radius ∧ res0 ≠ [] then res0.tail else res0
  match searchLoop mode graph.adj distf allowId ef radius fuel
      ⟨[(d0, ep)], res1, [ep], lb0, [ep]⟩ with
  | none => .error .outOfFuel
  | some (r, log) =>
    match mode with
    | .knn => .ok (trimHeap topk r, log)
    | .range =>
      let r := if rangeLimit > 0 then trimHeap rangeLimit r else r
      .ok (popWhileGt (radius + THRESHOLD_ERROR) r, log)

end Vsag

namespace Vsag

/-- The persistent state of an `HGraph` index.  Codecs (`FlattenInterface`)
are collaborators treated as opaque distance oracles: a codec maps a query
vector to a per-inner-id distance.  `resizeBit` is
`resize_increase_count_bit_`; `extraInfoSize` is the construction-time
`extra_info_size_` parameter (not serialized). -/
structure HGraphState where
  useReorder : Bool
  dim : Nat
  metric : Nat
  maxLevel : Nat
  entryPointId : Nat
  efConstruct : Nat
  mult : ℚ
  maxCapacity : Nat
  resizeBit : Nat
  labels : List Int
  labelLookup : List (Int × Nat)
  basicCodes : List ℚ → Nat → ℚ
  preciseCodes : List ℚ → Nat → ℚ
  bottomGraph : GraphCell
  routeGraphs : List GraphCell
  extraInfoSize : Nat
  extraInfos : List Nat

/-- `get_label_by_id`: the dense `labels_` vector read at an inner id. -/
def HGraph.get_label_by_id (s : HGraphState) (id : Nat) : Int :=
  s.labels.getD id 0

/-- `GetNumElements`. Modelled from the spec: the accessor lives in
`hgraph.h`, which is not part of the sources; per the data model the number
of elements is the bottom layer's `TotalCount`. -/
def HGraph.GetNumElements (s : HGraphState) : Nat :=
  s.bottomGraph.totalCount

/-- The upper-layer descent shared by `KnnSearch` and `RangeSearch`
(`for i = route_graphs_.size() - 1; i >= 0; --i` with `ef_ = 1`, no filter);
each step reseeds `ep_` with `result.top().second`. -/
def HGraph.routeDescend (s : HGraphState) (distf : Nat → ℚ) (fuel : Nat) :
    Except SErr Nat :=
  s.routeGraphs.reverse.foldlM
    (fun ep g => do
      let r ← HGraph.search_one_graph .knn g distf s.labels none ep 1 0 fuel
      match r.1 with
      | [] => .error .emptyTop
      | p :: _ => .ok p.2)
    s.entryPointId

/-- `HGraph::reorder` (hgraph.cpp, lines 880-907): pop every candidate,
recompute its distance with the given codec, and rebuild a heap capped at
`k` (`k <= 0` means keep everything). -/
def HGraph.reorder (distf : Nat → ℚ) (heap : MaxHeap) (k : Int) : MaxHeap :=
  let size := heap.length
  let k' : Nat := if k ≤ 0 then size else k.toNat
  let ids := heap.map (·.2)
  ids.foldl
    (fun h id =>
      let d := distf id
      let h := if h.length < k' ∨ d ≤ (h.headD (0, 0)).1
        then heapPush pairLt (d, id) h else h
      if h.length > k' then h.tail else h)
    []

/-- Turn the final heap into the emitted `(ids, dists)` dataset: the C++
extraction loop fills positions `size-1 … 0` by repeated `top()`/`pop()`,
yielding ascending-distance order, ids mapped through `labels_`. -/
def HGraph.emitResults (s : HGraphState) (heap : MaxHeap) : List (Int × ℚ) :=
  (heap.map (fun p => (HGraph.get_label_by_id s p.2, p.1))).reverse

/-- `HGraph::KnnSearch` (hgraph.cpp, lines 123-210).  The query is a single
vector; the upper-layer descent runs with `ef = 1` and no filter, the
bottom layer with `ef = ef_search` and the user filter; with `use_reorder`
the candidates are rescored by the precise codec; finally the heap is
popped down to `k`. -/
def HGraph.KnnSearch (s : HGraphState) (q : List ℚ) (k : Int)
    (efSearch : Nat) (filt : Option (Int → Bool)) (fuel : Nat) :
    Except SErr (List (Int × ℚ)) := do
  if q.length ≠ s.dim then .error .invalidArgument
  else if k ≤ 0 then .error .invalidArgument
  else
    let k := min k (HGraph.GetNumElements s : Int)
    let distf := s.basicCodes q
    let ep ← HGraph.routeDescend s distf fuel
    let r ← HGraph.search_one_graph .knn s.bottomGraph distf s.labels filt
      ep efSearch 0 fuel
    let res := if s.useReorder
      then HGraph.reorder (s.preciseCodes q) r.1 k else r.1
    .ok (HGraph.emitResults s (trimHeap k res))

/-- `HGraph::RangeSearch` (hgraph.cpp, lines 475-556).  Validates
`radius >= 0` and `limited_size != 0`; the bottom search runs in RANGE mode
with `ef_ = max(ef_search, limited_size)`; with `use_reorder` candidates
are rescored capped at `limited_size`; a positive `limited_size` trims the
heap; **no** `radius + ε` filter is applied at this level. -/
def HGraph.RangeSearch (s : HGraphState) (q : List ℚ) (radius : ℚ)
    (efSearch limitedSize : Int) (filt : Option (Int → Bool)) (fuel : Nat) :
    Except SErr (List (Int × ℚ)) := do
  if q.length ≠ s.dim then .error .invalidArgument
  else if radius < 0 then .error .invalidArgument
  else if limitedSize = 0 then .error .invalidArgument
  else
    let distf := s.basicCodes q
    let ep ← HGraph.routeDescend s distf fuel
    let r ← HGraph.search_one_graph .range s.bottomGraph distf s.labels filt
      ep (max efSearch limitedSize).toNat radius fuel
    let res := if s.useReorder
      then HGraph.reorder (s.preciseCodes q) r.1 limitedSize else r.1
    let res := if limitedSize > 0 then trimHeap limitedSize res else res
    .ok (HGraph.emitResults s res)

end Vsag

namespace Vsag

/-- Public error kinds of the failing paths under study. -/
inductive ErrorType where
  | INVALID_ARGUMENT
  | INDEX_NOT_EMPTY
  | READ_ERROR
  | NO_ENOUGH_MEMORY
deriving DecidableEq

/-- One field written to the at-rest stream.  Collaborator payloads
(codec, graph cell, extra-info store) are modelled from the spec: their
`Serialize`/`Deserialize` are opaque interface calls (spec section 6), so a
payload token carries the component's state verbatim. -/
inductive SerTok where
  | u8 (b : Bool)
  | u64 (n : Nat)
  | u32 (n : Nat)
  | f64 (q : ℚ)
  | vecI64 (l : List Int)
  | i64 (v : Int)
  | codecTok (c : List ℚ → Nat → ℚ)
  | graphTok (g : GraphCell)
  | extraTok (e : List Nat)

/-- `HGraph::serialize_basic_info` (hgraph.cpp, lines 558-577). -/
def HGraph.serialize_basic_info (s : HGraphState) : List SerTok :=
  [.u8 s.useReorder, .u64 s.dim, .u32 s.metric, .u64 s.maxLevel,
   .u32 s.entryPointId, .u64 s.efConstruct, .f64 s.mult, .u64 s.maxCapacity,
   .vecI64 s.labels, .u64 s.labelLookup.length] ++
  (s.labelLookup.map (fun p => [SerTok.i64 p.1, SerTok.u32 p.2])).flatten

/-- `HGraph::Serialize(StreamWriter&)` (hgraph.cpp, lines 579-593): basic
info, basic codec, bottom graph, precise codec iff `use_reorder_`, route
graphs for `i = 0 … max_level_ - 1`, extra info iff `extra_info_size_ > 0`.
The route-graph loop indexes `route_graphs_[i]` for `i < max_level_`. -/
def HGraph.SerializeStream (s : HGraphState) : List SerTok :=
  HGraph.serialize_basic_info s ++
  [.codecTok s.basicCodes, .graphTok s.bottomGraph] ++
  (if s.useReorder then [SerTok.codecTok s.preciseCodes] else []) ++
  (List.range s.maxLevel).map
    (fun i => SerTok.graphTok (s.routeGraphs.getD i emptyGraphCell)) ++
  (if s.extraInfoSize > 0 then [SerTok.extraTok s.extraInfos] else [])

/-- Read one `u8` field; any other token is a malformed stream. -/
def readU8 : List SerTok → Option (Bool × List SerTok)
  | .u8 b :: r => some (b, r)
  | _ => none

/-- Read one `u64` field. -/
def readU64 : List SerTok → Option (Nat × List SerTok)
  | .u64 n :: r => some (n, r)
  | _ => none

/-- Read one `u32` field. -/
def readU32 : List SerTok → Option (Nat × List SerTok)
  | .u32 n :: r => some (n, r)
  | _ => none

/-- Read one `f64` field. -/
def readF64 : List SerTok → Option (ℚ × List SerTok)
  | .f64 q :: r => some (q, r)
  | _ => none

/-- Read one serialized `i64` vector. -/
def readVecI64 : List SerTok → Option (List Int × List SerTok)
  | .vecI64 l :: r => some (l, r)
  | _ => none

/-- Read one `i64` field. -/
def readI64 : List SerTok → Option (Int × List SerTok)
  | .i64 v :: r => some (v, r)
  | _ => none

/-- Read one codec payload. -/
def readCodec : List SerTok → Option ((List ℚ → Nat → ℚ) × List SerTok)
  | .codecTok c :: r => some (c, r)
  | _ => none

/-- Read one graph-cell payload. -/
def readGraph : List SerTok → Option (GraphCell × List SerTok)
  | .graphTok g :: r => some (g, r)
  | _ => none

/-- Read one extra-info payload. -/
def readExtra : List SerTok → Option (List Nat × List SerTok)
  | .extraTok e :: r => some (e, r)
  | _ => none

/-- Read `n` `(label, inner_id)` pairs of the `label_lookup_` map. -/
def readPairs : Nat → List SerTok → Option (List (Int × Nat) × List SerTok)
  | 0, toks => some ([], toks)
  | n + 1, toks => do
    let (k, toks) ← readI64 toks
    let (v, toks) ← readU32 toks
    let (rest, toks) ← readPairs n toks
    some ((k, v) :: rest, toks)

/-- Read `n` route-graph payloads. -/
def readGraphs : Nat → List SerTok → Option (List GraphCell × List SerTok)
  | 0, toks => some ([], toks)
  | n + 1, toks => do
    let (g, toks) ← readGraph toks
    let (rest, toks) ← readGraphs n toks
    some (g :: rest, toks)

/-- `HGraph::deserialize_basic_info` (hgraph.cpp, lines 618-639): each field
overwrites the member in write order; the lookup pairs are `emplace`d into
the existing map. -/
def HGraph.deserialize_basic_info (s : HGraphState) (toks : List SerTok) :
    Option (HGraphState × List SerTok) := do
  let (useReorder, toks) ← readU8 toks
  let (dim, toks) ← readU64 toks
  let (metric, toks) ← readU32 toks
  let (maxLevel, toks) ← readU64 toks
  let (entryPointId, toks) ← readU32 toks
  let (efConstruct, toks) ← readU64 toks
  let (mult, toks) ← readF64 toks
  let (maxCapacity, toks) ← readU64 toks
  let (labels, toks) ← readVecI64 toks
  let (size, toks) ← readU64 toks
  let (pairs, toks) ← readPairs size toks
  some ({ s with useReorder := useReorder, dim := dim, metric := metric,
                 maxLevel := maxLevel, entryPointId := entryPointId,
                 efConstruct := efConstruct, mult := mult,
                 maxCapacity := maxCapacity, labels := labels,
                 labelLookup := s.labelLookup ++ pairs }, toks)

/-- `HGraph::Deserialize(StreamReader&)` (hgraph.cpp, lines 595-616): basic
info, basic codec, bottom graph, precise codec iff the *read* `use_reorder_`,
then `max_level_` fresh route graphs are appended (`emplace_back`) and the
graphs at indices `0 … max_level_ - 1` are deserialized in place; extra info
is read iff the index's own `extra_info_size_ > 0`. -/
def HGraph.DeserializeStream (s : HGraphState) (toks : List SerTok) :
    Option HGraphState := do
  let (s1, toks) ← HGraph.deserialize_basic_info s toks
  let (basicCodes, toks) ← readCodec toks
  let (bottomGraph, toks) ← readGraph toks
  let (preciseCodes, toks) ←
    if s1.useReorder then readCodec toks else some (s1.preciseCodes, toks)
  let appended := s1.routeGraphs ++ List.replicate s1.maxLevel emptyGraphCell
  let (gs, toks) ← readGraphs s1.maxLevel toks
  let routeGraphs := gs ++ appended.drop s1.maxLevel
  let (extraInfos, _toks) ←
    if s1.extraInfoSize > 0 then readExtra toks else some (s1.extraInfos, toks)
  some { s1 with basicCodes := basicCodes, bottomGraph := bottomGraph,
                 preciseCodes := preciseCodes, routeGraphs := routeGraphs,
                 extraInfos := extraInfos }

/-- A `BinarySet` handed to `Deserialize`: either the empty-index marker
(`BLANK_INDEX`) or the `INDEX_HGRAPH` payload. -/
structure BinarySet where
  blank : Bool
  toks : List SerTok

/-- `HGraph::Deserialize(const ReaderSet&)` (hgraph.cpp, lines 288-308):
reject a non-empty index before any read. -/
def HGraph.DeserializeReaderSet (s : HGraphState) (toks : List SerTok) :
    Except ErrorType HGraphState :=
  if 0 < HGraph.GetNumElements s then .error .INDEX_NOT_EMPTY
  else
    match HGraph.DeserializeStream s toks with
    | some s' => .ok s'
    | none => .error .READ_ERROR

/-- `HGraph::Deserialize(const BinarySet&)` (hgraph.cpp, lines 661-688):
reject a non-empty index, then accept the blank marker as a no-op. -/
def HGraph.DeserializeBinarySet (s : HGraphState) (bs : BinarySet) :
    Except ErrorType HGraphState :=
  if 0 < HGraph.GetNumElements s then .error .INDEX_NOT_EMPTY
  else if bs.blank then .ok s
  else
    match HGraph.DeserializeStream s bs.toks with
    | some s' => .ok s'
    | none => .error .READ_ERROR

/-- `HGraph::Deserialize(std::istream&)` (hgraph.cpp, lines 690-705):
reject a non-empty index before any read. -/
def HGraph.DeserializeIStream (s : HGraphState) (toks : List SerTok) :
    Except ErrorType HGraphState :=
  if 0 < HGraph.GetNumElements s then .error .INDEX_NOT_EMPTY
  else
    match HGraph.DeserializeStream s toks with
    | some s' => .ok s'
    | none => .error .READ_ERROR

end Vsag

namespace Vsag

/-- Error outcomes of `next_multiple_of_power_of_two`: `tooLarge` is the
source's own `std::runtime_error` for `n > 63`; `shiftUB` marks
`32 <= n <= 63`, where the source computes `1 << n` on a 32-bit `int` with a
shift count at least the type width — undefined behaviour in C++. -/
inductive NmErr where
  | tooLarge
  | shiftUB
deriving DecidableEq

/-- `next_multiple_of_power_of_two` (hgraph.cpp, lines 32-40).  `y` is
`uint64_t y = 1 << n` where the literal `1` has type `int`: for `n <= 30`
this is `2^n`; for `n = 31` the shift yields `INT_MIN`, which sign-extends
to `2^64 - 2^31` on conversion to `uint64_t`; for `32 <= n <= 63` the shift
count reaches the width of `int` and the behaviour is undefined.  The sum
`x + y - 1` wraps modulo `2^64` and `~(y - 1)` is the 64-bit complement. -/
def next_multiple_of_power_of_two (x n : Nat) : Except NmErr Nat :=
  if n > 63 then .error .tooLarge
  else if 32 ≤ n then .error .shiftUB
  else
    let y : Nat := if n = 31 then 2 ^ 64 - 2 ^ 31 else 2 ^ n
    .ok (((x + y - 1) % 2 ^ 64) &&& (2 ^ 64 - y))

/-- `HGraph::resize` (hgraph.cpp, lines 767-779): round the requested size
up with `next_multiple_of_power_of_two(new_size, resize_increase_count_bit_)`
and grow `max_capacity_` exactly when the rounded value exceeds it. -/
def HGraph.resize (s : HGraphState) (newSize : Nat) : Except NmErr HGraphState := do
  let curSize := s.maxCapacity
  let newSizePower2 ← next_multiple_of_power_of_two newSize s.resizeBit
  if curSize < newSizePower2 then
    .ok { s with maxCapacity := newSizePower2 }
  else
    .ok s

/-- The entry-point bookkeeping state mutated by `HGraph::hnsw_add`:
`max_level_`, `entry_point_id_`, and the bottom layer's `TotalCount`. -/
structure BuildState where
  maxLevel : Nat
  entryPointId : Nat
  bottomCount : Nat
deriving DecidableEq

/-- The per-point body of `HGraph::hnsw_add` (hgraph.cpp, lines 320-347),
restricted to entry-point bookkeeping.  The randomness of the level draw is
an input: `drawn` is the list of `get_random_level()` values, one per point
(modelled from the spec, section 3: the generator itself lives in
`hgraph.h`); the source then works with `level = get_random_level() - 1`,
which may be `-1`.  `innerId` is `i + cur_count`; a point is a promotion
when `level >= max_level_` or the bottom graph is still empty, in which case
`max_level_ = level + 1` and afterwards `entry_point_id_ = inner_id`. -/
def hnsw_add_step (s : BuildState) (innerId : Nat) (d : Nat) : BuildState :=
  let level : Int := (d : Int) - 1
  if level ≥ (s.maxLevel : Int) ∨ s.bottomCount = 0 then
    { maxLevel := (level + 1).toNat, entryPointId := innerId,
      bottomCount := s.bottomCount + 1 }
  else
    { s with bottomCount := s.bottomCount + 1 }

/-- The batch loop of `HGraph::hnsw_add`, one `hnsw_add_step` per point. -/
def hnsw_add_loop : BuildState → Nat → List Nat → BuildState
  | s, _, [] => s
  | s, innerId, d :: rest =>
    hnsw_add_loop (hnsw_add_step s innerId d) (innerId + 1) rest

/-- `HGraph::hnsw_add` over a batch: inner ids start at the bottom layer's
count at entry (`cur_count`). -/
def HGraph.hnsw_add (s : BuildState) (drawn : List Nat) : BuildState :=
  hnsw_add_loop s s.bottomCount drawn

/-- The duplicate-detection loop of
`HGraph::split_dataset_by_duplicate_label` (hgraph.cpp, lines 844-851):
an input index is pushed on `failed_ids` iff its label is already interned
(`label_lookup_`) or occurred earlier in the batch (`temp_labels`); only
fresh labels enter `temp_labels`.  Returns the failed indices in input
order. -/
def dupScan (existing : List Int) : List Int → Nat → List Int → List Int
  | [], _, _ => []
  | lab :: rest, i, temp =>
    if lab ∈ existing ∨ lab ∈ temp then
      (i : Int) :: dupScan existing rest (i + 1) temp
    else
      dupScan existing rest (i + 1) (lab :: temp)

/-- `HGraph::split_dataset_by_duplicate_label` (hgraph.cpp, lines 834-878),
projected to the `failed_ids` output that `HGraph::Add` returns: after the
scan the batch size is appended as a sentinel; when no index failed the
function returns early **with the sentinel still in the list**; otherwise
the sentinel is popped and each failed index is replaced by the *label* at
that index (`failed_id = labels[failed_id]`). -/
def HGraph.split_dataset_by_duplicate_label (existing : List Int)
    (batch : List Int) : List Int :=
  let failed := dupScan existing batch 0 [] ++ [(batch.length : Int)]
  if failed.length = 1 then failed
  else
    failed.dropLast.map (fun i => batch.getD i.toNat 0)

/-- `HGraph::Add` (hgraph.cpp, lines 89-121), projected to its return
value: the `failed_ids` list produced by the duplicate-label split. -/
def HGraph.AddFailedIds (existing : List Int) (batch : List Int) : List Int :=
  HGraph.split_dataset_by_duplicate_label existing batch

end Vsag

namespace Vsag

/-- Refinement reference for the range pipeline, following the spec's
wording: identical to `HGraph.RangeSearch` except that the beam width of
the bottom-layer traversal is an explicit parameter. -/
def HGraph.RangeSearchSpecBeam (s : HGraphState) (q : List ℚ) (radius : ℚ)
    (beam limitedSize : Int) (filt : Option (Int → Bool)) (fuel : Nat) :
    Except SErr (List (Int × ℚ)) := do
  if q.length ≠ s.dim then .error .invalidArgument
  else if radius < 0 then .error .invalidArgument
  else if limitedSize = 0 then .error .invalidArgument
  else
    let distf := s.basicCodes q
    let ep ← HGraph.routeDescend s distf fuel
    let r ← HGraph.search_one_graph .range s.bottomGraph distf s.labels filt
      ep beam.toNat radius fuel
    let res := if s.useReorder
      then HGraph.reorder (s.preciseCodes q) r.1 limitedSize else r.1
    let res := if limitedSize > 0 then trimHeap limitedSize res else res
    .ok (HGraph.emitResults s res)

/-- The rejected input positions according to the spec's wording: position
`i` of the batch is rejected iff its label is already interned in the index
or has occurred at an earlier position of the same batch. -/
def specRejected (existing batch : List Int) : List Nat :=
  (List.range batch.length).filter
    (fun i => decide (batch.getD i 0 ∈ existing) ||
      (List.range i).any (fun j => batch.getD j 0 == batch.getD i 0))

/-- The rejection predicate relative to a list `prior` of labels already
scanned before this batch run: position `k` of `batch` is rejected iff its
label is interned, occurs in `prior`, or equals an earlier batch label. -/
def rejPred (existing prior batch : List Int) (k : Nat) : Bool :=
  decide (batch.getD k 0 ∈ existing) || decide (batch.getD k 0 ∈ prior) ||
    (List.range k).any (fun j => batch.getD j 0 == batch.getD k 0)

/-- The rejected positions of `batch` relative to scanned labels `prior`. -/
def specRejectedFrom (existing prior batch : List Int) : List Nat :=
  (List.range batch.length).filter (rejPred existing prior batch)

/-- Index of the first occurrence of `a` in a list (length if absent). -/
def idxOf (a : Nat) : List Nat → Nat
  | [] => 0
  | x :: t => if x = a then 0 else idxOf a t + 1

/-- Position of the first point whose drawn level equals the overall
maximum drawn level. -/
def firstMaxIdx (l : List Nat) : Nat :=
  idxOf (l.foldl max 0) l

/-- A heap list whose distances are non-increasing front to back (so the
head really is the heap maximum by distance). -/
def HeapFstSorted (l : MaxHeap) : Prop :=
  List.Pairwise (fun a b : ℚ × Nat => b.1 ≤ a.1) l

/-- A two-point fixture: labels 10 and 11, entry point 0 at distance 5,
its single neighbor 1 at distance 10, linked both ways. -/
def twoPointDist : List ℚ → Nat → ℚ := fun _q i => if i = 0 then 5 else 10

/-- Index state holding the two-point fixture. -/
def twoPointState : HGraphState where
  useReorder := false
  dim := 1
  metric := 0
  maxLevel := 0
  entryPointId := 0
  efConstruct := 100
  mult := 1
  maxCapacity := 1024
  resizeBit := 10
  labels := [10, 11]
  labelLookup := [(10, 0), (11, 1)]
  basicCodes := twoPointDist
  preciseCodes := twoPointDist
  bottomGraph := ⟨fun n => if n = 0 then [1] else if n = 1 then [0] else [], 2⟩
  routeGraphs := []
  extraInfoSize := 0
  extraInfos := []

/-- A freshly constructed empty index (same construction parameters as the
two-point fixture). -/
def emptyState : HGraphState where
  useReorder := false
  dim := 1
  metric := 0
  maxLevel := 0
  entryPointId := 0
  efConstruct := 100
  mult := 1
  maxCapacity := 1024
  resizeBit := 10
  labels := []
  labelLookup := []
  basicCodes := fun _ _ => 0
  preciseCodes := fun _ _ => 0
  bottomGraph := ⟨fun _ => [], 0⟩
  routeGraphs := []
  extraInfoSize := 0
  extraInfos := []

/-- A one-point graph cell with no edges. -/
def unitGraph : GraphCell := ⟨fun _ => [], 1⟩

end Vsag

namespace Vsag

/-- Claim C4 (code bug): in RANGE mode, when the filter rejects the entry
point (so it was never pushed onto the result heap) and its distance
exceeds the radius, `HGraph::search_one_graph` executes
`cur_result.pop()` on an empty `std::priority_queue` — undefined behaviour.
Concretely: the two-point fixture, radius 1, entry distance 5, and a filter
rejecting every label. -/
theorem search_one_graph_pops_empty_heap :
    HGraph.search_one_graph .range twoPointState.bottomGraph
      (twoPointDist [0]) twoPointState.labels (some fun _ => false)
      0 100 1 10 = .error .emptyPop := by
  rfl

/-- Claim C1 (counterexample): `HGraph::RangeSearch` applies no
`radius + ε` filter, so a successful call can return an id whose distance
exceeds `radius + ε`: on the two-point fixture with radius 1 it returns
label 11 at distance 10. -/
theorem range_search_returns_beyond_radius :
    HGraph.RangeSearch twoPointState [0] 1 100 (-1) none 10 =
      .ok [(11, 10)] ∧ ¬ ((10 : ℚ) ≤ 1 + THRESHOLD_ERROR) := by
  exact ⟨by rfl, by norm_num [THRESHOLD_ERROR]⟩

/-- Claim C2 (counterexample): on the insert sequence
`[(1, v1), (2, v2), (1, v3)]` the failed list returned by `Add` is `[1]`
(the rejected element's *label*), not `[2]` (its input index):
`failed_id = labels[failed_id]` replaces each index by its label. -/
theorem add_failed_ids_are_labels :
    HGraph.AddFailedIds [] [1, 2, 1] = [1] ∧
      HGraph.AddFailedIds [] [1, 2, 1] ≠ [2] := by
  exact ⟨by rfl, by decide⟩

/-- Claim C3 (counterexample): after drawing levels `[1, 1]` from a fresh
index, `max_level` is 1 and the *second* point also drew level 1, but
`entry_point_id` remains 0: a later point that merely ties the maximum
level never becomes the entry point (promotion needs `level >= max_level_`,
i.e. a strict increase of the drawn level). -/
theorem entry_point_not_latest_at_max_level :
    HGraph.hnsw_add ⟨0, 0, 0⟩ [1, 1] = ⟨1, 0, 2⟩ ∧
      [1, 1].getD 1 0 = (HGraph.hnsw_add ⟨0, 0, 0⟩ [1, 1]).maxLevel ∧
      (HGraph.hnsw_add ⟨0, 0, 0⟩ [1, 1]).entryPointId ≠ 1 := by
  exact ⟨by rfl, by rfl, by decide⟩

/-- Claim C8 (counterexample): `next_multiple_of_power_of_two` computes
`(x + y - 1) & ~(y - 1)` in wrapping 64-bit arithmetic, so for
`x = 2^64 - 1` and `n = 10` it returns 0, which is smaller than `x` and
hence not the least multiple of `2^n` at least `x`. -/
theorem next_multiple_overflow_wraps :
    next_multiple_of_power_of_two (2 ^ 64 - 1) 10 = .ok 0 ∧
      ¬ (2 ^ 64 - 1 ≤ (0 : Nat)) := by
  exact ⟨by rfl, by decide⟩

/-- Claim C6: for a non-empty index, the at-rest stream consists of exactly
the normative field sequence: `use_reorder`, `dim`, `metric`, `max_level`,
`entry_point_id`, `ef_construct`, `mult`, `max_capacity`, the labels
vector, the lookup size and its `(label, inner_id)` pairs, the basic codec,
the bottom graph, the precise codec iff `use_reorder`, the route graphs for
levels `0 … max_level - 1`, and the extra info iff `extra_info_size > 0`. -/
theorem serialize_emits_normative_field_order (s : HGraphState)
    (_h : 0 < HGraph.GetNumElements s) :
    HGraph.SerializeStream s =
      [SerTok.u8 s.useReorder] ++ [SerTok.u64 s.dim] ++ [SerTok.u32 s.metric] ++
      [SerTok.u64 s.maxLevel] ++ [SerTok.u32 s.entryPointId] ++
      [SerTok.u64 s.efConstruct] ++ [SerTok.f64 s.mult] ++
      [SerTok.u64 s.maxCapacity] ++ [SerTok.vecI64 s.labels] ++
      [SerTok.u64 s.labelLookup.length] ++
      (s.labelLookup.map (fun p => [SerTok.i64 p.1, SerTok.u32 p.2])).flatten ++
      [SerTok.codecTok s.basicCodes] ++ [SerTok.graphTok s.bottomGraph] ++
      (if s.useReorder then [SerTok.codecTok s.preciseCodes] else []) ++
      (List.range s.maxLevel).map
        (fun i => SerTok.graphTok (s.routeGraphs.getD i emptyGraphCell)) ++
      (if s.extraInfoSize > 0 then [SerTok.extraTok s.extraInfos] else []) := by
  simp [HGraph.SerializeStream, HGraph.serialize_basic_info]

/-- Witness for C6 at the two-point fixture. -/
theorem serialize_emits_normative_field_order_witness :
    0 < HGraph.GetNumElements twoPointState ∧
    HGraph.SerializeStream twoPointState =
      [SerTok.u8 twoPointState.useReorder] ++ [SerTok.u64 twoPointState.dim] ++
      [SerTok.u32 twoPointState.metric] ++ [SerTok.u64 twoPointState.maxLevel] ++
      [SerTok.u32 twoPointState.entryPointId] ++
      [SerTok.u64 twoPointState.efConstruct] ++ [SerTok.f64 twoPointState.mult] ++
      [SerTok.u64 twoPointState.maxCapacity] ++
      [SerTok.vecI64 twoPointState.labels] ++
      [SerTok.u64 twoPointState.labelLookup.length] ++
      (twoPointState.labelLookup.map
        (fun p => [SerTok.i64 p.1, SerTok.u32 p.2])).flatten ++
      [SerTok.codecTok twoPointState.basicCodes] ++
      [SerTok.graphTok twoPointState.bottomGraph] ++
      (if twoPointState.useReorder
        then [SerTok.codecTok twoPointState.preciseCodes] else []) ++
      (List.range twoPointState.maxLevel).map
        (fun i => SerTok.graphTok (twoPointState.routeGraphs.getD i emptyGraphCell)) ++
      (if twoPointState.extraInfoSize > 0
        then [SerTok.extraTok twoPointState.extraInfos] else []) :=
  ⟨by decide, serialize_emits_normative_field_order twoPointState (by decide)⟩

/-- Claim C7: every `Deserialize` overload, invoked on an index that
already holds at least one element, fails with `INDEX_NOT_EMPTY` whatever
the payload is (the guard precedes every read), and the error path performs
no state mutation. -/
theorem deserialize_nonempty_rejected (s : HGraphState) (toks : List SerTok)
    (bs : BinarySet) (h : 0 < HGraph.GetNumElements s) :
    HGraph.DeserializeReaderSet s toks = .error .INDEX_NOT_EMPTY ∧
    HGraph.DeserializeBinarySet s bs = .error .INDEX_NOT_EMPTY ∧
    HGraph.DeserializeIStream s toks = .error .INDEX_NOT_EMPTY := by
  refine ⟨?_, ?_, ?_⟩ <;>
    simp [HGraph.DeserializeReaderSet, HGraph.DeserializeBinarySet,
      HGraph.DeserializeIStream, h]

/-- Witness for C7 at the two-point fixture. -/
theorem deserialize_nonempty_rejected_witness :
    0 < HGraph.GetNumElements twoPointState ∧
    (HGraph.DeserializeReaderSet twoPointState [] = .error .INDEX_NOT_EMPTY ∧
     HGraph.DeserializeBinarySet twoPointState ⟨false, []⟩ =
       .error .INDEX_NOT_EMPTY ∧
     HGraph.DeserializeIStream twoPointState [] = .error .INDEX_NOT_EMPTY) :=
  ⟨by decide, deserialize_nonempty_rejected twoPointState [] ⟨false, []⟩ (by decide)⟩

/-- Claim C10: `HGraph::RangeSearch` runs the bottom-layer searcher with
beam width `max(ef_search, limited_size)`, not `ef_search` alone: it
coincides with the reference pipeline whose explicit beam parameter is
`max efSearch limitedSize`. -/
theorem range_search_beam_is_max (s : HGraphState) (q : List ℚ) (radius : ℚ)
    (efSearch limitedSize : Int) (filt : Option (Int → Bool)) (fuel : Nat) :
    HGraph.RangeSearch s q radius efSearch limitedSize filt fuel =
      HGraph.RangeSearchSpecBeam s q radius (max efSearch limitedSize)
        limitedSize filt fuel := by
  rfl

end Vsag

namespace Vsag

/-- Ids collected by the unvisited scan were not visited before it. -/
theorem collectUnvisited_fresh :
    ∀ (ns visited : List Nat) (x : Nat),
      x ∈ (collectUnvisited visited ns).1 → x ∉ visited := by
  intro ns
  induction ns with
  | nil => intro visited x hx; simp [collectUnvisited] at hx
  | cons n rest ih =>
    intro visited x hx
    by_cases hn : n ∈ visited
    · simp [collectUnvisited, hn] at hx
      exact ih visited x hx
    · simp [collectUnvisited, hn] at hx
      rcases hx with rfl | hx
      · exact hn
      · intro hv
        exact ih (n :: visited) x hx (List.mem_cons_of_mem n hv)

/-- The unvisited scan collects each id at most once. -/
theorem collectUnvisited_nodup :
    ∀ (ns visited : List Nat), (collectUnvisited visited ns).1.Nodup := by
  intro ns
  induction ns with
  | nil => intro visited; simp [collectUnvisited]
  | cons n rest ih =>
    intro visited
    by_cases hn : n ∈ visited
    · simpa [collectUnvisited, hn] using ih visited
    · simp only [collectUnvisited, hn, if_neg, ite_false]
      refine List.nodup_cons.mpr ⟨?_, ih (n :: visited)⟩
      intro hmem
      exact collectUnvisited_fresh rest (n :: visited) n hmem (List.mem_cons_self n visited)

/-- After the scan, the visited set contains the old visited set and every
collected id. -/
theorem collectUnvisited_mem_visited :
    ∀ (ns visited : List Nat) (x : Nat),
      (x ∈ visited ∨ x ∈ (collectUnvisited visited ns).1) →
      x ∈ (collectUnvisited visited ns).2 := by
  intro ns
  induction ns with
  | nil => intro visited x hx; simpa [collectUnvisited] using hx
  | cons n rest ih =>
    intro visited x hx
    by_cases hn : n ∈ visited
    · simp only [collectUnvisited, hn, ite_true]
      simp only [collectUnvisited, hn, ite_true] at hx
      exact ih visited x hx
    · simp only [collectUnvisited, hn, ite_false]
      simp only [collectUnvisited, hn, ite_false] at hx
      rcases hx with hx | hx
      · exact ih (n :: visited) x (Or.inl (List.mem_cons_of_mem n hx))
      · rcases List.mem_cons.mp hx with rfl | hx
        · exact ih (x :: visited) x (Or.inl (List.mem_cons_self x visited))
        · exact ih (n :: visited) x (Or.inr hx)

/-- One relaxation changes neither the query log nor the visited set. -/
theorem relaxOne_log_visited (mode : SearchMode) (ef : Nat) (radius : ℚ)
    (allowId : Nat → Bool) (distf : Nat → ℚ) (st : LoopSt) (n : Nat) :
    (relaxOne mode ef radius allowId distf st n).log = st.log ∧
    (relaxOne mode ef radius allowId distf st n).visited = st.visited := by
  unfold relaxOne
  dsimp only
  split <;> exact ⟨rfl, rfl⟩

/-- The whole relaxation pass changes neither the log nor the visited set. -/
theorem relaxAll_log_visited (mode : SearchMode) (ef : Nat) (radius : ℚ)
    (allowId : Nat → Bool) (distf : Nat → ℚ) :
    ∀ (tbv : List Nat) (st : LoopSt),
      (relaxAll mode ef radius allowId distf st tbv).log = st.log ∧
      (relaxAll mode ef radius allowId distf st tbv).visited = st.visited := by
  intro tbv
  induction tbv with
  | nil => intro st; exact ⟨rfl, rfl⟩
  | cons n rest ih =>
    intro st
    have h1 := relaxOne_log_visited mode ef radius allowId distf st n
    have h2 := ih (relaxOne mode ef radius allowId distf st n)
    exact ⟨h2.1.trans h1.1, h2.2.trans h1.2⟩

/-- Loop invariant for the visited-once property: if every logged id is
visited and the log is duplicate-free, the final log is duplicate-free. -/
theorem searchLoop_log_nodup (mode : SearchMode) (adj : Nat → List Nat)
    (distf : Nat → ℚ) (allowId : Nat → Bool) (ef : Nat) (radius : ℚ) :
    ∀ (fuel : Nat) (st : LoopSt) (r : MaxHeap) (log : List Nat),
      searchLoop mode adj distf allowId ef radius fuel st = some (r, log) →
      st.log.Nodup → (∀ x ∈ st.log, x ∈ st.visited) → log.Nodup := by
  intro fuel
  induction fuel with
  | zero => intro st r log h; simp [searchLoop] at h
  | succ fuel ih =>
    intro st r log h hnd hsub
    rw [searchLoop] at h
    match hc : st.cand with
    | [] =>
      rw [hc] at h
      simp at h
      rw [← h.2]
      exact hnd
    | (dc, c) :: candRest =>
      rw [hc] at h
      dsimp only at h
      by_cases hbreak : mode = .knn ∧ st.lb < (dc : WithTop ℚ) ∧ st.res.length = ef
      · rw [if_pos hbreak] at h
        simp at h
        rw [← h.2]
        exact hnd
      · rw [if_neg hbreak] at h
        set scan := collectUnvisited st.visited (adj c) with hscan
        set stMid : LoopSt :=
          { st with cand := candRest, visited := scan.2,
                    log := st.log ++ scan.1 } with hmid
        have hlv := relaxAll_log_visited mode ef radius allowId distf scan.1 stMid
        refine ih _ r log h ?_ ?_
        · rw [hlv.1]
          refine List.nodup_append.mpr ⟨hnd, collectUnvisited_nodup _ _, ?_⟩
          intro x hx hx2
          exact collectUnvisited_fresh (adj c) st.visited x hx2 (hsub x hx)
        · intro x hx
          rw [hlv.1] at hx
          rw [hlv.2]
          rcases List.mem_append.mp hx with hx | hx
          · exact collectUnvisited_mem_visited (adj c) st.visited x (Or.inl (hsub x hx))
          · exact collectUnvisited_mem_visited (adj c) st.visited x (Or.inr hx)

end Vsag

namespace Vsag

/-- Claim C9: during a single searcher call, the codec distance primitive
is queried on each inner id at most once — the log of ids passed to
`flatten->Query` is duplicate-free, for every graph, entry point, `ef`,
mode, radius, and filter, in both `HGraph::search_one_graph` and
`BasicSearcher::search_impl`. -/
theorem searcher_queries_each_id_once :
    (∀ (mode : SearchMode) (graph : GraphCell) (distf : Nat → ℚ)
        (labels : List Int) (filt : Option (Int → Bool)) (ep ef : Nat)
        (radius : ℚ) (fuel : Nat) (r : MaxHeap) (log : List Nat),
      HGraph.search_one_graph mode graph distf labels filt ep ef radius fuel =
        .ok (r, log) → log.Nodup) ∧
    (∀ (mode : SearchMode) (graph : GraphCell) (distf : Nat → ℚ)
        (filt : Option (Nat → Bool)) (ep ef : Nat) (topk : Int) (radius : ℚ)
        (rangeLimit : Int) (fuel : Nat) (r : MaxHeap) (log : List Nat),
      BasicSearcher.search_impl mode graph distf filt ep ef topk radius
        rangeLimit fuel = .ok (r, log) → log.Nodup) := by
  constructor
  · intro mode graph distf labels filt ep ef radius fuel r log h
    unfold HGraph.search_one_graph at h
    dsimp only at h
    split at h
    · exact absurd h (by simp)
    · split at h
      · exact absurd h (by simp)
      · rename_i heq
        simp only [Except.ok.injEq, Prod.mk.injEq] at h
        rw [h.1, h.2] at heq
        exact searchLoop_log_nodup mode graph.adj distf _ ef radius fuel _ r log
          heq (List.nodup_singleton ep) (fun x hx => hx)
  · intro mode graph distf filt ep ef topk radius rangeLimit fuel r log h
    unfold BasicSearcher.search_impl at h
    dsimp only at h
    split at h
    · exact absurd h (by simp)
    · rename_i a b heq
      have hb : b.Nodup :=
        searchLoop_log_nodup mode graph.adj distf _ ef radius fuel _ a b
          heq (List.nodup_singleton ep) (fun x hx => hx)
      match mode with
      | .knn =>
        simp only [Except.ok.injEq, Prod.mk.injEq] at h
        rw [← h.2]
        exact hb
      | .range =>
        simp only [Except.ok.injEq, Prod.mk.injEq] at h
        rw [← h.2]
        exact hb

end Vsag

namespace Vsag

/-- Witness for C9: a concrete `HGraph::search_one_graph` call whose query
log is duplicate-free. -/
theorem searcher_queries_each_id_once_witness : ([0] : List Nat).Nodup :=
  searcher_queries_each_id_once.1 .knn unitGraph (fun _ => 0) [] none 0 1 0 3
    [(0, 0)] [0] (by rfl)

end Vsag

namespace Vsag

/-- Membership in a heap after a push. -/
theorem heapPush_mem (lt : (ℚ × Nat) → (ℚ × Nat) → Bool) (p : ℚ × Nat) :
    ∀ (l : MaxHeap) (x : ℚ × Nat), x ∈ heapPush lt p l → x = p ∨ x ∈ l := by
  intro l
  induction l with
  | nil => intro x hx; simpa [heapPush] using hx
  | cons q t ih =>
    intro x hx
    unfold heapPush at hx
    by_cases hlt : lt p q = true
    · rw [if_pos hlt] at hx
      rcases List.mem_cons.mp hx with rfl | hx
      · exact Or.inr (List.mem_cons_self _ _)
      · rcases ih x hx with h | h
        · exact Or.inl h
        · exact Or.inr (List.mem_cons_of_mem _ h)
    · rw [if_neg hlt] at hx
      rcases List.mem_cons.mp hx with rfl | hx
      · exact Or.inl rfl
      · exact Or.inr hx

/-- A pair that keeps the push scanning past `q` is at most as far as `q`. -/
theorem pairLt_true_le {p q : ℚ × Nat} (h : pairLt p q = true) : p.1 ≤ q.1 := by
  simp only [pairLt, Bool.or_eq_true, Bool.and_eq_true, decide_eq_true_eq] at h
  rcases h with h | ⟨h, _⟩
  · exact le_of_lt h
  · exact le_of_eq h

/-- A pair not less than `q` has at least `q`'s distance. -/
theorem pairLt_false_le {p q : ℚ × Nat} (h : pairLt p q = false) : q.1 ≤ p.1 := by
  simp only [pairLt, Bool.or_eq_false_iff, decide_eq_false_iff_not] at h
  exact le_of_not_lt h.1

/-- Both branches of a conditional heap keep the heap shape. -/
theorem ite_sorted (c : Prop) [Decidable c] (l1 l2 : MaxHeap)
    (h1 : HeapFstSorted l1) (h2 : HeapFstSorted l2) :
    HeapFstSorted (if c then l1 else l2) := by
  split
  · exact h1
  · exact h2

/-- Pushing preserves the non-increasing-distance heap shape. -/
theorem heapPush_fstSorted (p : ℚ × Nat) :
    ∀ (l : MaxHeap), HeapFstSorted l → HeapFstSorted (heapPush pairLt p l) := by
  intro l
  induction l with
  | nil => intro _; exact List.pairwise_singleton _ p
  | cons q t ih =>
    intro hs
    rcases List.pairwise_cons.mp hs with ⟨hq, ht⟩
    unfold heapPush
    by_cases hlt : pairLt p q = true
    · rw [if_pos hlt]
      refine List.pairwise_cons.mpr ⟨?_, ih ht⟩
      intro x hx
      rcases heapPush_mem pairLt p t x hx with rfl | hx
      · exact pairLt_true_le hlt
      · exact hq x hx
    · rw [if_neg hlt]
      have hfalse : pairLt p q = false := Bool.not_eq_true _ |>.mp hlt
      refine List.pairwise_cons.mpr ⟨?_, hs⟩
      intro x hx
      rcases List.mem_cons.mp hx with rfl | hx
      · exact pairLt_false_le hfalse
      · exact le_trans (hq x hx) (pairLt_false_le hfalse)

/-- Popping the top preserves the heap shape. -/
theorem fstSorted_tail {l : MaxHeap} (h : HeapFstSorted l) :
    HeapFstSorted l.tail := by
  cases l with
  | nil => exact h
  | cons q t => exact (List.pairwise_cons.mp h).2

/-- One relaxation preserves the heap shape of the result heap. -/
theorem relaxOne_res_sorted (mode : SearchMode) (ef : Nat) (radius : ℚ)
    (allowId : Nat → Bool) (distf : Nat → ℚ) (st : LoopSt) (n : Nat)
    (hs : HeapFstSorted st.res) :
    HeapFstSorted (relaxOne mode ef radius allowId distf st n).res := by
  unfold relaxOne
  dsimp only
  split
  · dsimp only
    have base : HeapFstSorted
        (if allowId n = true then heapPush pairLt (distf n, n) st.res else st.res) :=
      ite_sorted _ _ _ (heapPush_fstSorted _ st.res hs) hs
    by_cases hk : mode = SearchMode.knn ∧
        (if allowId n = true then heapPush pairLt (distf n, n) st.res
          else st.res).length > ef
    · rw [if_pos hk]
      exact fstSorted_tail base
    · rw [if_neg hk]
      exact base
  · exact hs

/-- The relaxation pass preserves the heap shape of the result heap. -/
theorem relaxAll_res_sorted (mode : SearchMode) (ef : Nat) (radius : ℚ)
    (allowId : Nat → Bool) (distf : Nat → ℚ) :
    ∀ (tbv : List Nat) (st : LoopSt), HeapFstSorted st.res →
      HeapFstSorted (relaxAll mode ef radius allowId distf st tbv).res := by
  intro tbv
  induction tbv with
  | nil => intro st hs; exact hs
  | cons n rest ih =>
    intro st hs
    exact ih _ (relaxOne_res_sorted mode ef radius allowId distf st n hs)

/-- The traversal returns a heap in non-increasing-distance shape. -/
theorem searchLoop_res_sorted (mode : SearchMode) (adj : Nat → List Nat)
    (distf : Nat → ℚ) (allowId : Nat → Bool) (ef : Nat) (radius : ℚ) :
    ∀ (fuel : Nat) (st : LoopSt) (r : MaxHeap) (log : List Nat),
      searchLoop mode adj distf allowId ef radius fuel st = some (r, log) →
      HeapFstSorted st.res → HeapFstSorted r := by
  intro fuel
  induction fuel with
  | zero => intro st r log h; simp [searchLoop] at h
  | succ fuel ih =>
    intro st r log h hs
    rw [searchLoop] at h
    match hc : st.cand with
    | [] =>
      rw [hc] at h
      simp at h
      rw [← h.1]
      exact hs
    | (dc, c) :: candRest =>
      rw [hc] at h
      dsimp only at h
      by_cases hbreak : mode = .knn ∧ st.lb < (dc : WithTop ℚ) ∧ st.res.length = ef
      · rw [if_pos hbreak] at h
        simp at h
        rw [← h.1]
        exact hs
      · rw [if_neg hbreak] at h
        exact ih _ r log h (relaxAll_res_sorted mode ef radius allowId distf _ _ hs)

/-- Trimming to a size bound preserves the heap shape. -/
theorem trimHeap_sorted (k : Int) :
    ∀ (l : MaxHeap), HeapFstSorted l → HeapFstSorted (trimHeap k l) := by
  intro l
  induction l with
  | nil => intro h; exact h
  | cons q t ih =>
    intro h
    unfold trimHeap
    split
    · exact ih (fstSorted_tail h)
    · exact h

/-- After popping every element above `bound` off the top of a shaped heap,
every remaining element is within `bound`. -/
theorem popWhileGt_le (bound : ℚ) :
    ∀ (l : MaxHeap), HeapFstSorted l →
      ∀ p ∈ popWhileGt bound l, p.1 ≤ bound := by
  intro l
  induction l with
  | nil => intro _ p hp; simp [popWhileGt] at hp
  | cons q t ih =>
    intro hs p hp
    unfold popWhileGt at hp
    by_cases hq : q.1 > bound
    · rw [if_pos hq] at hp
      exact ih (fstSorted_tail hs) p hp
    · rw [if_neg hq] at hp
      rcases List.mem_cons.mp hp with rfl | hp
      · exact le_of_not_lt hq
      · exact le_trans ((List.pairwise_cons.mp hs).1 p hp) (le_of_not_lt hq)

/-- Claim C1 (amended): every id returned from a successful
`BasicSearcher::search_impl` call in RANGE mode has distance at most
`radius + THRESHOLD_ERROR`, for every radius, limit, and filter —
`HGraph::RangeSearch` itself performs no such final filter (see the
counterexample theorem `range_search_returns_beyond_radius`). -/
theorem basic_range_results_within_radius (graph : GraphCell)
    (distf : Nat → ℚ) (filt : Option (Nat → Bool)) (ep ef : Nat) (topk : Int)
    (radius : ℚ) (rangeLimit : Int) (fuel : Nat) (r : MaxHeap)
    (log : List Nat)
    (h : BasicSearcher.search_impl .range graph distf filt ep ef topk radius
      rangeLimit fuel = .ok (r, log)) :
    ∀ p ∈ r, p.1 ≤ radius + THRESHOLD_ERROR := by
  unfold BasicSearcher.search_impl at h
  dsimp only at h
  split at h
  · exact absurd h (by simp)
  · rename_i a b heq
    have hsa : HeapFstSorted a :=
      searchLoop_res_sorted .range graph.adj distf _ ef radius fuel _ a b heq
        (ite_sorted _ _ _
          (fstSorted_tail (ite_sorted _ _ _
            (List.pairwise_singleton _ _) List.Pairwise.nil))
          (ite_sorted _ _ _ (List.pairwise_singleton _ _) List.Pairwise.nil))
    simp only [Except.ok.injEq, Prod.mk.injEq] at h
    rw [← h.1]
    intro p hp
    exact popWhileGt_le (radius + THRESHOLD_ERROR) _
      (ite_sorted _ _ _ (trimHeap_sorted rangeLimit a hsa) hsa) p hp

/-- Witness for the amended C1 at a one-point graph: the only returned
pair has distance 0, within radius 1 plus the threshold. -/
theorem basic_range_results_within_radius_witness :
    ((0 : ℚ), (0 : Nat)).1 ≤ 1 + THRESHOLD_ERROR :=
  basic_range_results_within_radius unitGraph (fun _ => 0) none 0 1 0 1 (-1) 3
    [(0, 0)] [0]
    (by norm_num [BasicSearcher.search_impl, searchLoop, collectUnvisited,
      relaxAll, relaxOne, heapPush, trimHeap, popWhileGt, THRESHOLD_ERROR,
      unitGraph])
    (0, 0) (List.mem_singleton.mpr rfl)

end Vsag

namespace Vsag

/-- The fold seed is a lower bound of a maximum fold. -/
theorem foldl_max_init_le : ∀ (l : List Nat) (a : Nat), a ≤ l.foldl max a := by
  intro l
  induction l with
  | nil => intro a; exact le_refl a
  | cons x t ih => intro a; exact le_trans (le_max_left a x) (ih (max a x))

/-- Every member is bounded by the maximum fold. -/
theorem mem_le_foldl_max :
    ∀ (l : List Nat) (a x : Nat), x ∈ l → x ≤ l.foldl max a := by
  intro l
  induction l with
  | nil => intro a x hx; exact absurd hx (List.not_mem_nil x)
  | cons y t ih =>
    intro a x hx
    rcases List.mem_cons.mp hx with rfl | hx
    · exact le_trans (le_max_right a x) (foldl_max_init_le t (max a x))
    · exact ih (max a y) x hx

/-- The maximum fold is the seed or a member. -/
theorem foldl_max_mem :
    ∀ (l : List Nat) (a : Nat), l.foldl max a = a ∨ l.foldl max a ∈ l := by
  intro l
  induction l with
  | nil => intro a; exact Or.inl rfl
  | cons x t ih =>
    intro a
    rcases ih (max a x) with h | h
    · rcases max_choice a x with hm | hm
      · exact Or.inl (by rw [List.foldl_cons, h, hm])
      · refine Or.inr (List.mem_cons.mpr (Or.inl ?_))
        rw [List.foldl_cons, h, hm]
    · exact Or.inr (List.mem_cons_of_mem x h)

/-- For a non-empty list the maximum fold is attained by a member. -/
theorem foldl_max_mem_of_ne :
    ∀ (l : List Nat), l ≠ [] → l.foldl max 0 ∈ l := by
  intro l h
  match l with
  | [] => exact absurd rfl h
  | x :: t =>
    have : (x :: t).foldl max 0 = t.foldl max x := by
      rw [List.foldl_cons, Nat.zero_max]
    rw [this]
    rcases foldl_max_mem t x with h1 | h1
    · rw [h1]; exact List.mem_cons_self x t
    · exact List.mem_cons_of_mem x h1

/-- First-occurrence index ignores a suffix when the element occurs. -/
theorem idxOf_append_mem :
    ∀ (l l2 : List Nat) (a : Nat), a ∈ l → idxOf a (l ++ l2) = idxOf a l := by
  intro l
  induction l with
  | nil => intro l2 a ha; exact absurd ha (List.not_mem_nil a)
  | cons x t ih =>
    intro l2 a ha
    by_cases hx : x = a
    · simp [idxOf, hx]
    · rcases List.mem_cons.mp ha with rfl | ha
      · exact absurd rfl hx
      · simp [idxOf, hx, ih l2 a ha]

/-- First-occurrence index passes over a prefix missing the element. -/
theorem idxOf_append_not_mem :
    ∀ (l l2 : List Nat) (a : Nat), a ∉ l →
      idxOf a (l ++ l2) = l.length + idxOf a l2 := by
  intro l
  induction l with
  | nil => intro l2 a _; simp
  | cons x t ih =>
    intro l2 a ha
    have hx : ¬ x = a := fun hxa => ha (hxa ▸ List.mem_cons_self x t)
    have hat : a ∉ t := fun hmem => ha (List.mem_cons_of_mem x hmem)
    simp [idxOf, hx, ih l2 a hat]
    omega

/-- Unrolling the batch loop at its last point. -/
theorem hnsw_add_loop_append :
    ∀ (l : List Nat) (d : Nat) (s : BuildState) (c : Nat),
      hnsw_add_loop s c (l ++ [d]) =
        hnsw_add_step (hnsw_add_loop s c l) (c + l.length) d := by
  intro l
  induction l with
  | nil => intro d s c; simp [hnsw_add_loop]
  | cons x t ih =>
    intro d s c
    show hnsw_add_loop (hnsw_add_step s c x) (c + 1) (t ++ [d]) = _
    rw [ih d (hnsw_add_step s c x) (c + 1)]
    have : c + 1 + t.length = c + (t.length + 1) := by omega
    rw [this]
    rfl

/-- Claim C3 (amended): after a batch of inserts on a fresh index,
`max_level_` equals the highest drawn level, and `entry_point_id_` is the
inner id of the *first* point whose drawn level reached that maximum
(equivalently, the latest point whose drawn level strictly exceeded every
earlier one) — not the latest point that reached it. -/
theorem hnsw_add_entry_point_spec (drawn : List Nat) (h : drawn ≠ []) :
    (HGraph.hnsw_add ⟨0, 0, 0⟩ drawn).maxLevel = drawn.foldl max 0 ∧
    (HGraph.hnsw_add ⟨0, 0, 0⟩ drawn).entryPointId = firstMaxIdx drawn ∧
    (HGraph.hnsw_add ⟨0, 0, 0⟩ drawn).bottomCount = drawn.length := by
  induction drawn using List.reverseRecOn with
  | nil => exact absurd rfl h
  | append_singleton l d ih =>
    by_cases hl : l = []
    · subst hl
      refine ⟨?_, ?_, ?_⟩ <;>
        simp [HGraph.hnsw_add, hnsw_add_loop, hnsw_add_step, firstMaxIdx,
          idxOf, Nat.zero_max]
    · obtain ⟨ihM, ihE, ihC⟩ := ih hl
      have hstep : HGraph.hnsw_add ⟨0, 0, 0⟩ (l ++ [d]) =
          hnsw_add_step (HGraph.hnsw_add ⟨0, 0, 0⟩ l) l.length d := by
        show hnsw_add_loop ⟨0, 0, 0⟩ 0 (l ++ [d]) = _
        rw [hnsw_add_loop_append l d ⟨0, 0, 0⟩ 0, Nat.zero_add]
        rfl
      have hlen : l.length ≠ 0 := fun h0 => hl (List.eq_nil_of_length_eq_zero h0)
      have hmax : (l ++ [d]).foldl max 0 = max (l.foldl max 0) d := by
        rw [List.foldl_append]
        rfl
      by_cases hdm : l.foldl max 0 < d
      · have hcond : ((d : Int) - 1 ≥ ((HGraph.hnsw_add ⟨0, 0, 0⟩ l).maxLevel : Int)) ∨
            (HGraph.hnsw_add ⟨0, 0, 0⟩ l).bottomCount = 0 := by
          left
          rw [ihM]
          omega
        have hstep2 : hnsw_add_step (HGraph.hnsw_add ⟨0, 0, 0⟩ l) l.length d =
            ⟨d, l.length, (HGraph.hnsw_add ⟨0, 0, 0⟩ l).bottomCount + 1⟩ := by
          unfold hnsw_add_step
          rw [if_pos hcond]
          have : ((d : Int) - 1 + 1).toNat = d := by omega
          rw [this]
        have hdn : d ∉ l := fun hmem =>
          absurd (mem_le_foldl_max l 0 d hmem) (by omega)
        refine ⟨?_, ?_, ?_⟩
        · rw [hstep, hstep2, hmax]
          simp [Nat.max_eq_right (le_of_lt hdm)]
        · rw [hstep, hstep2]
          show l.length = firstMaxIdx (l ++ [d])
          unfold firstMaxIdx
          rw [hmax, Nat.max_eq_right (le_of_lt hdm),
            idxOf_append_not_mem l [d] d hdn]
          simp [idxOf]
        · rw [hstep, hstep2]
          simp [ihC]
      · have hcond : ¬ (((d : Int) - 1 ≥ ((HGraph.hnsw_add ⟨0, 0, 0⟩ l).maxLevel : Int)) ∨
            (HGraph.hnsw_add ⟨0, 0, 0⟩ l).bottomCount = 0) := by
          push_neg
          constructor
          · rw [ihM]; omega
          · rw [ihC]; exact hlen
        have hstep2 : hnsw_add_step (HGraph.hnsw_add ⟨0, 0, 0⟩ l) l.length d =
            { HGraph.hnsw_add ⟨0, 0, 0⟩ l with
              bottomCount := (HGraph.hnsw_add ⟨0, 0, 0⟩ l).bottomCount + 1 } := by
          unfold hnsw_add_step
          rw [if_neg hcond]
        have hmem : l.foldl max 0 ∈ l := foldl_max_mem_of_ne l hl
        refine ⟨?_, ?_, ?_⟩
        · rw [hstep, hstep2]
          show (HGraph.hnsw_add ⟨0, 0, 0⟩ l).maxLevel = _
          rw [ihM, hmax, Nat.max_eq_left (by omega)]
        · rw [hstep, hstep2]
          show (HGraph.hnsw_add ⟨0, 0, 0⟩ l).entryPointId = _
          rw [ihE]
          unfold firstMaxIdx
          rw [hmax, Nat.max_eq_left (by omega), idxOf_append_mem l [d] _ hmem]
        · rw [hstep, hstep2]
          show (HGraph.hnsw_add ⟨0, 0, 0⟩ l).bottomCount + 1 = _
          rw [ihC]
          simp

/-- Witness for the amended C3 at drawn levels `[0, 2, 1]`: `max_level` is
2 and the entry point is point 1, the first (and only) point that reached
level 2. -/
theorem hnsw_add_entry_point_spec_witness :
    (HGraph.hnsw_add ⟨0, 0, 0⟩ [0, 2, 1]).maxLevel = [0, 2, 1].foldl max 0 ∧
    (HGraph.hnsw_add ⟨0, 0, 0⟩ [0, 2, 1]).entryPointId = firstMaxIdx [0, 2, 1] ∧
    (HGraph.hnsw_add ⟨0, 0, 0⟩ [0, 2, 1]).bottomCount = [0, 2, 1].length :=
  hnsw_add_entry_point_spec [0, 2, 1] (by simp)

end Vsag

namespace Vsag

/-- Boolean equality of labels, commuted into a decidable proposition. -/
theorem beq_comm_decide (a b : Int) : (a == b) = decide (b = a) := by
  by_cases h : a = b
  · subst h; simp
  · simp [h, Ne.symm h]

/-- The rejection predicate at the head position. -/
theorem rejPred_zero (existing prior : List Int) (lab : Int) (rest : List Int) :
    rejPred existing prior (lab :: rest) 0 =
      (decide (lab ∈ existing) || decide (lab ∈ prior)) := by
  simp [rejPred]

/-- Shifting the rejection predicate past the head position moves the head
label into the scanned prefix. -/
theorem rejPred_succ (existing prior : List Int) (lab : Int)
    (rest : List Int) (k : Nat) :
    rejPred existing prior (lab :: rest) (k + 1) =
      rejPred existing (prior ++ [lab]) rest k := by
  simp only [rejPred, List.getD_cons_succ, List.getD_cons_zero,
    List.range_succ_eq_map, List.any_cons, List.any_map, Function.comp_def,
    List.mem_append, List.mem_singleton, Bool.decide_or,
    beq_comm_decide lab (rest.getD k 0)]
  cases decide (rest.getD k 0 ∈ existing) <;>
    cases decide (rest.getD k 0 ∈ prior) <;>
    cases decide (rest.getD k 0 = lab) <;>
    cases (List.range k).any (fun j => rest.getD j 0 == rest.getD k 0) <;>
    rfl

/-- Unfolding the rejected-position list at the head of a batch. -/
theorem specRejectedFrom_cons (existing prior : List Int) (lab : Int)
    (rest : List Int) :
    specRejectedFrom existing prior (lab :: rest) =
      (if rejPred existing prior (lab :: rest) 0 = true then [0] else []) ++
        (specRejectedFrom existing (prior ++ [lab]) rest).map Nat.succ := by
  unfold specRejectedFrom
  show List.filter _ (List.range (rest.length + 1)) = _
  rw [List.range_succ_eq_map, List.filter_cons, List.filter_map,
    @List.filter_congr _ (rejPred existing prior (lab :: rest) ∘ Nat.succ)
      (rejPred existing (prior ++ [lab]) rest) (List.range rest.length)
      (fun k _ => rejPred_succ existing prior lab rest k)]
  split
  · simp
  · simp

/-- The duplicate scan of `HGraph::split_dataset_by_duplicate_label`
computes exactly the spec's rejected positions (relative to the scanned
prefix `prior`), mapped to absolute input indices.  `temp` is the subset of
`prior` outside the index, as the source loop maintains it. -/
theorem dupScan_eq_spec (existing : List Int) :
    ∀ (rest prior temp : List Int),
      (∀ lab : Int, lab ∈ temp ↔ (lab ∈ prior ∧ lab ∉ existing)) →
      dupScan existing rest prior.length temp =
        (specRejectedFrom existing prior rest).map
          (fun k => ((prior.length + k : Nat) : Int)) := by
  intro rest
  induction rest with
  | nil => intro prior temp _; simp [dupScan, specRejectedFrom]
  | cons lab rest' ih =>
    intro prior temp htemp
    have hcons := specRejectedFrom_cons existing prior lab rest'
    have hlen : prior.length + 1 = (prior ++ [lab]).length := by simp
    by_cases hfail : lab ∈ existing ∨ lab ∈ temp
    · have htemp' : ∀ lab' : Int,
          lab' ∈ temp ↔ (lab' ∈ prior ++ [lab] ∧ lab' ∉ existing) := by
        intro lab'
        constructor
        · intro hm
          rcases (htemp lab').mp hm with ⟨h1, h2⟩
          exact ⟨List.mem_append.mpr (Or.inl h1), h2⟩
        · rintro ⟨h1, h2⟩
          rcases List.mem_append.mp h1 with h1 | h1
          · exact (htemp lab').mpr ⟨h1, h2⟩
          · rcases List.mem_singleton.mp h1 with rfl
            rcases hfail with hf | hf
            · exact absurd hf h2
            · exact hf
      have hP0 : rejPred existing prior (lab :: rest') 0 = true := by
        rw [rejPred_zero]
        rcases hfail with hf | hf
        · simp [hf]
        · simp [((htemp lab).mp hf).1]
      have hlhs : dupScan existing (lab :: rest') prior.length temp =
          (prior.length : Int) ::
            dupScan existing rest' (prior.length + 1) temp := by
        show (if lab ∈ existing ∨ lab ∈ temp
          then (prior.length : Int) ::
            dupScan existing rest' (prior.length + 1) temp
          else dupScan existing rest' (prior.length + 1) (lab :: temp)) = _
        rw [if_pos hfail]
      rw [hlhs, show dupScan existing rest' (prior.length + 1) temp =
          dupScan existing rest' (prior ++ [lab]).length temp from by rw [hlen],
        ih (prior ++ [lab]) temp htemp', hcons, hP0]
      simp only [if_true, List.map_append, List.map_map, List.map_cons,
        List.map_nil, Nat.add_zero, List.singleton_append]
      refine congrArg₂ List.cons rfl (List.map_congr_left ?_)
      intro k _
      show (((prior ++ [lab]).length + k : Nat) : Int) =
        ((prior.length + Nat.succ k : Nat) : Int)
      congr 1
      rw [List.length_append]
      simp
      omega
    · push_neg at hfail
      have htemp' : ∀ lab' : Int,
          lab' ∈ (lab :: temp) ↔ (lab' ∈ prior ++ [lab] ∧ lab' ∉ existing) := by
        intro lab'
        constructor
        · intro hm
          rcases List.mem_cons.mp hm with rfl | hm
          · exact ⟨List.mem_append.mpr (Or.inr (List.mem_singleton.mpr rfl)),
              hfail.1⟩
          · rcases (htemp lab').mp hm with ⟨h1, h2⟩
            exact ⟨List.mem_append.mpr (Or.inl h1), h2⟩
        · rintro ⟨h1, h2⟩
          rcases List.mem_append.mp h1 with h1 | h1
          · exact List.mem_cons_of_mem lab ((htemp lab').mpr ⟨h1, h2⟩)
          · rcases List.mem_singleton.mp h1 with rfl
            exact List.mem_cons_self lab' temp
      have hP0 : rejPred existing prior (lab :: rest') 0 = false := by
        rw [rejPred_zero]
        have hnp : lab ∉ prior := fun hp =>
          hfail.2 ((htemp lab).mpr ⟨hp, hfail.1⟩)
        simp [hfail.1, hnp]
      have hlhs : dupScan existing (lab :: rest') prior.length temp =
          dupScan existing rest' (prior.length + 1) (lab :: temp) := by
        show (if lab ∈ existing ∨ lab ∈ temp
          then (prior.length : Int) ::
            dupScan existing rest' (prior.length + 1) temp
          else dupScan existing rest' (prior.length + 1) (lab :: temp)) = _
        rw [if_neg (by rw [not_or]; exact hfail)]
      rw [hlhs, show dupScan existing rest' (prior.length + 1) (lab :: temp) =
          dupScan existing rest' (prior ++ [lab]).length (lab :: temp) from by
            rw [hlen],
        ih (prior ++ [lab]) (lab :: temp) htemp', hcons, hP0]
      simp only [Bool.false_eq_true, if_false, List.nil_append, List.map_map]
      refine List.map_congr_left ?_
      intro k _
      show (((prior ++ [lab]).length + k : Nat) : Int) =
        ((prior.length + Nat.succ k : Nat) : Int)
      congr 1
      rw [List.length_append]
      simp
      omega

/-- The spec's rejected positions start from an empty scanned prefix. -/
theorem specRejected_eq_from (existing batch : List Int) :
    specRejected existing batch = specRejectedFrom existing [] batch := by
  unfold specRejected specRejectedFrom
  refine List.filter_congr ?_
  intro k _
  simp [rejPred]

/-- Claim C2 (amended): whenever at least one input position is rejected,
`Add` returns the list of *labels* (not input indices) of the rejected
elements, in input order: position `i` is rejected iff its label is already
interned or occurred at an earlier position of the batch. -/
theorem add_failed_ids_are_rejected_labels (existing batch : List Int)
    (h : specRejected existing batch ≠ []) :
    HGraph.AddFailedIds existing batch =
      (specRejected existing batch).map (fun i => batch.getD i 0) := by
  have hscan : dupScan existing batch 0 [] =
      (specRejected existing batch).map (fun (k : Nat) => (k : Int)) := by
    have h0 := dupScan_eq_spec existing batch [] [] (by simp)
    rw [specRejected_eq_from]
    simpa using h0
  have hne : dupScan existing batch 0 [] ≠ [] := by
    rw [hscan]
    intro hnil
    exact h (List.map_eq_nil_iff.mp hnil)
  unfold HGraph.AddFailedIds HGraph.split_dataset_by_duplicate_label
  dsimp only
  have hlen1 : ¬ (dupScan existing batch 0 [] ++
      [(batch.length : Int)]).length = 1 := by
    rw [List.length_append]
    simp only [List.length_singleton]
    intro hcontra
    exact hne (List.eq_nil_of_length_eq_zero (by omega))
  rw [if_neg hlen1, List.dropLast_concat, hscan, List.map_map]
  refine List.map_congr_left ?_
  intro k _
  show batch.getD ((k : Nat) : Int).toNat 0 = batch.getD k 0
  rw [Int.toNat_natCast]

/-- Witness for the amended C2 on the insert sequence `[1, 2, 1]` against
an empty index. -/
theorem add_failed_ids_are_rejected_labels_witness :
    HGraph.AddFailedIds [] [1, 2, 1] =
      (specRejected [] [1, 2, 1]).map (fun i => [1, 2, 1].getD i 0) :=
  add_failed_ids_are_rejected_labels [] [1, 2, 1] (by decide)

end Vsag

namespace Vsag

/-- Conjunction with the complement of the low bits extracts the aligned
part: for `a < 2^64`, `a & ~(2^n - 1)` (in 64 bits) is `2^n * (a / 2^n)`. -/
theorem land_high_mask (a n : Nat) (hn : n ≤ 64) (ha : a < 2 ^ 64) :
    a &&& (2 ^ 64 - 2 ^ n) = 2 ^ n * (a / 2 ^ n) := by
  have hmask : 2 ^ 64 - 2 ^ n = 2 ^ n * (2 ^ (64 - n) - 1) := by
    rw [Nat.mul_sub_one, ← pow_add]
    congr 2
    omega
  have hdiv : a / 2 ^ n = a >>> n := (Nat.shiftRight_eq_div_pow a n).symm
  refine Nat.eq_of_testBit_eq ?_
  intro i
  rw [Nat.testBit_and, hmask, Nat.testBit_mul_pow_two,
    Nat.testBit_two_pow_sub_one, Nat.testBit_mul_pow_two, hdiv,
    Nat.testBit_shiftRight]
  by_cases hin : n ≤ i
  · have hni : n + (i - n) = i := by omega
    rw [hni]
    by_cases hi64 : i < 64
    · have hlt : i - n < 64 - n := by omega
      simp [hin, hlt, ge_iff_le, Bool.and_comm]
    · have hbit : a.testBit i = false :=
        Nat.testBit_lt_two_pow (lt_of_lt_of_le ha
          (Nat.pow_le_pow_right (by norm_num) (by omega)))
      simp [hbit]
  · have hge : ¬ (i ≥ n) := hin
    simp [hge]

/-- Claim C8 (amended): for `n ≤ 30` (where `1 << n` on a 32-bit `int` is
well defined) and `x + 2^n ≤ 2^64` (no 64-bit wrap of `x + y - 1`),
`next_multiple_of_power_of_two(x, n)` returns the least multiple of `2^n`
at least `x`; and `resize` grows `max_capacity_` to exactly the rounded
value when it exceeds the current capacity and otherwise leaves the state
unchanged. -/
theorem next_multiple_least_and_resize :
    (∀ x n : Nat, n ≤ 30 → x + 2 ^ n ≤ 2 ^ 64 →
      ∃ r, next_multiple_of_power_of_two x n = .ok r ∧ x ≤ r ∧
        r % 2 ^ n = 0 ∧ ∀ m, x ≤ m → m % 2 ^ n = 0 → r ≤ m) ∧
    (∀ (s : HGraphState) (newSize r : Nat),
      next_multiple_of_power_of_two newSize s.resizeBit = .ok r →
      HGraph.resize s newSize =
        .ok (if s.maxCapacity < r then { s with maxCapacity := r } else s)) := by
  constructor
  · intro x n hn hx
    have h1 : 1 ≤ 2 ^ n := Nat.one_le_two_pow
    have ha64 : x + 2 ^ n - 1 < 2 ^ 64 := by omega
    have hcall : next_multiple_of_power_of_two x n =
        .ok (((x + 2 ^ n - 1) % 2 ^ 64) &&& (2 ^ 64 - 2 ^ n)) := by
      unfold next_multiple_of_power_of_two
      rw [if_neg (by omega : ¬ n > 63), if_neg (by omega : ¬ 32 ≤ n),
        show (if n = 31 then 2 ^ 64 - 2 ^ 31 else 2 ^ n) = 2 ^ n from
          if_neg (by omega)]
    rw [hcall, Nat.mod_eq_of_lt ha64,
      land_high_mask (x + 2 ^ n - 1) n (by omega) ha64]
    have hdm := Nat.div_add_mod (x + 2 ^ n - 1) (2 ^ n)
    have hmlt : (x + 2 ^ n - 1) % 2 ^ n < 2 ^ n :=
      Nat.mod_lt _ (Nat.pos_of_ne_zero (by omega))
    refine ⟨_, rfl, by omega, Nat.mul_mod_right _ _, ?_⟩
    intro m hm hmod
    obtain ⟨q, rfl⟩ := Nat.dvd_of_mod_eq_zero hmod
    by_contra hlt
    push_neg at hlt
    have hqlt : q < (x + 2 ^ n - 1) / 2 ^ n := Nat.lt_of_mul_lt_mul_left hlt
    have hstep : 2 ^ n * (q + 1) ≤ 2 ^ n * ((x + 2 ^ n - 1) / 2 ^ n) :=
      Nat.mul_le_mul_left _ (by omega)
    have hdist : 2 ^ n * (q + 1) = 2 ^ n * q + 2 ^ n := by ring
    omega
  · intro s newSize r h
    unfold HGraph.resize
    rw [h]
    show (if s.maxCapacity < r then Except.ok { s with maxCapacity := r }
        else Except.ok s : Except NmErr HGraphState) =
      Except.ok (if s.maxCapacity < r then { s with maxCapacity := r } else s)
    rw [apply_ite Except.ok]

/-- Witness for the amended C8: rounding 5 to the next multiple of `2^2`,
and resizing the empty fixture (whose `resize_bit` is 10) to hold 5
elements. -/
theorem next_multiple_least_and_resize_witness :
    (∃ r, next_multiple_of_power_of_two 5 2 = .ok r ∧ 5 ≤ r ∧
      r % 2 ^ 2 = 0 ∧ ∀ m, 5 ≤ m → m % 2 ^ 2 = 0 → r ≤ m) ∧
    HGraph.resize emptyState 5 =
      .ok (if emptyState.maxCapacity < 1024
        then { emptyState with maxCapacity := 1024 } else emptyState) :=
  ⟨next_multiple_least_and_resize.1 5 2 (by norm_num) (by norm_num),
   next_multiple_least_and_resize.2 emptyState 5 1024 (by decide)⟩

end Vsag

namespace Vsag

/-- Reading positions `0 … length-1` with a default recovers the list. -/
theorem getD_range_map {α : Type} (d : α) :
    ∀ (l : List α), (List.range l.length).map (fun i => l.getD i d) = l := by
  intro l
  induction l with
  | nil => simp
  | cons a t ih =>
    show (List.range (t.length + 1)).map (fun i => (a :: t).getD i d) = a :: t
    rw [List.range_succ_eq_map, List.map_cons, List.map_map]
    simp only [List.getD_cons_zero]
    refine congrArg₂ List.cons rfl ?_
    rw [show ((fun i => (a :: t).getD i d) ∘ Nat.succ) =
      (fun i => t.getD i d) from rfl]
    exact ih

/-- Parsing back the serialized `label_lookup_` pairs. -/
theorem readPairs_flatten :
    ∀ (l : List (Int × Nat)) (rest : List SerTok),
      readPairs l.length
        ((l.map (fun p => [SerTok.i64 p.1, SerTok.u32 p.2])).flatten ++ rest) =
      some (l, rest) := by
  intro l
  induction l with
  | nil => intro rest; simp [readPairs]
  | cons p t ih =>
    intro rest
    show readPairs (t.length + 1) _ = _
    simp only [List.map_cons, List.flatten_cons, List.cons_append,
      List.append_assoc, List.nil_append, readPairs, readI64, readU32,
      Option.bind_eq_bind, Option.some_bind, Option.bind, ih rest]

/-- Parsing back the serialized route graphs. -/
theorem readGraphs_map :
    ∀ (gs : List GraphCell) (rest : List SerTok),
      readGraphs gs.length (gs.map SerTok.graphTok ++ rest) = some (gs, rest) := by
  intro gs
  induction gs with
  | nil => intro rest; simp [readGraphs]
  | cons g t ih =>
    intro rest
    show readGraphs (t.length + 1) _ = _
    simp only [List.map_cons, List.cons_append, readGraphs, readGraph,
      Option.bind_eq_bind, Option.some_bind, ih rest]

end Vsag

namespace Vsag

/-- Parsing back the serialized route graphs at the end of the stream. -/
theorem readGraphs_map_nil (gs : List GraphCell) :
    readGraphs gs.length (gs.map SerTok.graphTok) = some (gs, []) := by
  have h := readGraphs_map gs []
  simpa using h

/-- Deserializing a serialized index into a freshly constructed index
(with the same `extra_info_size_` parameter) restores every serialized
component; the precise codec and extra infos of the target survive only
when they are not read from the stream. -/
theorem deserialize_serialize_stream (X Y : HGraphState)
    (hR : Y.routeGraphs = []) (hLk : Y.labelLookup = [])
    (hE : Y.extraInfoSize = X.extraInfoSize)
    (hLen : X.routeGraphs.length = X.maxLevel) :
    HGraph.DeserializeStream Y (HGraph.SerializeStream X) = some
      { Y with useReorder := X.useReorder, dim := X.dim, metric := X.metric,
               maxLevel := X.maxLevel, entryPointId := X.entryPointId,
               efConstruct := X.efConstruct, mult := X.mult,
               maxCapacity := X.maxCapacity, labels := X.labels,
               labelLookup := X.labelLookup,
               basicCodes := X.basicCodes, bottomGraph := X.bottomGraph,
               preciseCodes := if X.useReorder then X.preciseCodes
                 else Y.preciseCodes,
               routeGraphs := X.routeGraphs,
               extraInfos := if 0 < X.extraInfoSize then X.extraInfos
                 else Y.extraInfos } := by
  have hroutes : (List.range X.maxLevel).map
      (fun i => SerTok.graphTok (X.routeGraphs.getD i emptyGraphCell)) =
      X.routeGraphs.map SerTok.graphTok := by
    rw [← hLen,
      show (fun i => SerTok.graphTok (X.routeGraphs.getD i emptyGraphCell)) =
        SerTok.graphTok ∘ (fun i => X.routeGraphs.getD i emptyGraphCell)
        from rfl,
      ← List.map_map, getD_range_map]
  unfold HGraph.DeserializeStream HGraph.deserialize_basic_info
    HGraph.SerializeStream HGraph.serialize_basic_info
  rw [hroutes]
  cases hUR : X.useReorder with
  | true =>
    rcases Nat.eq_zero_or_pos X.extraInfoSize with hE0 | hE0
    · simp [readU8, readU64, readU32, readF64, readVecI64, readCodec,
        readGraph, readExtra, readPairs_flatten, readGraphs_map, readGraphs_map_nil, hLk, hR, hE,
        hE0, ← hLen, Option.bind, List.append_assoc, List.drop_replicate]
    · simp [readU8, readU64, readU32, readF64, readVecI64, readCodec,
        readGraph, readExtra, readPairs_flatten, readGraphs_map, readGraphs_map_nil, hLk, hR, hE,
        Nat.pos_iff_ne_zero.mp hE0, hE0, ← hLen, Option.bind,
        List.append_assoc, List.drop_replicate]
  | false =>
    rcases Nat.eq_zero_or_pos X.extraInfoSize with hE0 | hE0
    · simp [readU8, readU64, readU32, readF64, readVecI64, readCodec,
        readGraph, readExtra, readPairs_flatten, readGraphs_map, readGraphs_map_nil, hLk, hR, hE,
        hE0, ← hLen, Option.bind, List.append_assoc, List.drop_replicate]
    · simp [readU8, readU64, readU32, readF64, readVecI64, readCodec,
        readGraph, readExtra, readPairs_flatten, readGraphs_map, readGraphs_map_nil, hLk, hR, hE,
        Nat.pos_iff_ne_zero.mp hE0, hE0, ← hLen, Option.bind,
        List.append_assoc, List.drop_replicate]

end Vsag

namespace Vsag

/-- `KnnSearch` reads only the search-relevant components: two states that
agree on them (and on the precise codec whenever reorder is on) answer
every query identically. -/
theorem KnnSearch_congr (s1 s2 : HGraphState)
    (h1 : s1.dim = s2.dim) (h2 : s1.bottomGraph = s2.bottomGraph)
    (h3 : s1.entryPointId = s2.entryPointId)
    (h4 : s1.routeGraphs = s2.routeGraphs)
    (h5 : s1.basicCodes = s2.basicCodes) (h6 : s1.labels = s2.labels)
    (h7 : s1.useReorder = s2.useReorder)
    (h8 : s1.useReorder = true → s1.preciseCodes = s2.preciseCodes) :
    ∀ (q : List ℚ) (k : Int) (efSearch : Nat) (filt : Option (Int → Bool))
      (fuel : Nat),
      HGraph.KnnSearch s1 q k efSearch filt fuel =
      HGraph.KnnSearch s2 q k efSearch filt fuel := by
  intro q k efSearch filt fuel
  cases hur : s2.useReorder with
  | true =>
    have h8' := h8 (h7.trans hur)
    simp only [HGraph.KnnSearch, HGraph.GetNumElements, HGraph.routeDescend,
      HGraph.emitResults, HGraph.get_label_by_id, h1, h2, h3, h4, h5, h6, h7,
      h8', hur]
  | false =>
    simp only [HGraph.KnnSearch, HGraph.GetNumElements, HGraph.routeDescend,
      HGraph.emitResults, HGraph.get_label_by_id, h1, h2, h3, h4, h5, h6, h7,
      hur, Bool.false_eq_true, if_false]

set_option maxHeartbeats 1000000 in
/-- Claim C5: deserializing the stream produced by `Serialize(X)` into an
empty index (same construction parameters) succeeds and yields an index
whose `KnnSearch` returns identical `(ids, dists)` as `X` for every query,
`k`, `ef_search`, and filter. -/
theorem serialize_deserialize_same_results (X Y : HGraphState)
    (hR : Y.routeGraphs = []) (hLk : Y.labelLookup = [])
    (hE : Y.extraInfoSize = X.extraInfoSize)
    (hLen : X.routeGraphs.length = X.maxLevel) :
    ∃ Z, HGraph.DeserializeStream Y (HGraph.SerializeStream X) = some Z ∧
      ∀ (q : List ℚ) (k : Int) (efSearch : Nat) (filt : Option (Int → Bool))
        (fuel : Nat),
        HGraph.KnnSearch Z q k efSearch filt fuel =
        HGraph.KnnSearch X q k efSearch filt fuel := by
  refine ⟨_, deserialize_serialize_stream X Y hR hLk hE hLen, ?_⟩
  intro q k efSearch filt fuel
  refine KnnSearch_congr _ X ?_ ?_ ?_ ?_ ?_ ?_ ?_ ?_ q k efSearch filt fuel
  · rfl
  · rfl
  · rfl
  · rfl
  · rfl
  · rfl
  · rfl
  · intro hur
    show (if X.useReorder = true then X.preciseCodes else Y.preciseCodes) =
      X.preciseCodes
    rw [if_pos hur]

/-- Witness for C5: the serialized two-point fixture restored into the
empty fixture. -/
theorem serialize_deserialize_same_results_witness :
    ∃ Z, HGraph.DeserializeStream emptyState
        (HGraph.SerializeStream twoPointState) = some Z ∧
      ∀ (q : List ℚ) (k : Int) (efSearch : Nat) (filt : Option (Int → Bool))
        (fuel : Nat),
        HGraph.KnnSearch Z q k efSearch filt fuel =
        HGraph.KnnSearch twoPointState q k efSearch filt fuel :=
  serialize_deserialize_same_results twoPointState emptyState rfl rfl rfl rfl

end Vsag
